import Mathlib

/-!
Verification development for the immer transience subsystem.

The definitions below shallowly embed:
* `src/immer/transience/gc_transience_policy.hpp` — the `edit` token type,
  the `owner` and `ownee` roles, and the process-wide `noone` sentinel owner;
* `src/immer/array_transient.hpp` — the transient wrapper over the array
  backing store (`size`, `empty`, `push_back`, `set`, `update`, `take`,
  `persistent`);
* the backing store `detail::arrays::with_capacity` and the persistent
  `immer::array` conversion, which are part of the repository but whose
  sources are not available here; their operations are modelled from the
  specification (each such definition is marked `Modelled from the spec:`).

Machine pointers are modelled as natural numbers (`0` plays `nullptr`);
`heap_::allocate` is modelled as a fresh-address allocator: each live
allocation has an address distinct from every other live allocation and
from `nullptr`, captured by a monotone counter threaded through
state-passing style.
-/

set_option autoImplicit false

namespace Immer

/-- The `edit` token of `gc_transience_policy`: a raw pointer value (`void* v`)
compared only for equality.  Addresses are modelled as naturals, `0 = nullptr`. -/
structure Edit where
  v : Nat
deriving DecidableEq, Repr

/-- The `edit{nullptr}` value used by `ownee` as the unowned marker. -/
def Edit.null : Edit := ⟨0⟩

/-- State of the modelled allocator `heap_::allocate(1, norefs_tag{})`:
the next fresh address.  Kept at least `1` so minted tokens never equal
`nullptr`. -/
structure AllocState where
  next : Nat
deriving DecidableEq, Repr

/-- Allocator state at program start. -/
def AllocState.init : AllocState := ⟨1⟩

/-- One allocation: returns a fresh address and advances the state. -/
def AllocState.allocate (s : AllocState) : Edit × AllocState :=
  (⟨s.next⟩, ⟨s.next + 1⟩)

/-- The `owner` struct: holds `edit token_`. -/
structure Owner where
  token_ : Edit
deriving DecidableEq, Repr

/-- `owner()` — the default constructor.  Its body is empty, so the default
member initializer `token_ {heap_::allocate(1, norefs_tag{})}` runs and mints
a fresh token. -/
def Owner.mkDefault (s : AllocState) : Owner × AllocState :=
  let (e, s') := s.allocate
  (⟨e⟩, s')

/-- `owner(const owner&) {}` — the copy constructor.  It does not mention
`token_`, so the default member initializer runs: the copy mints a fresh
token of its own, independent of the source. -/
def Owner.copyCtor (_src : Owner) (s : AllocState) : Owner × AllocState :=
  Owner.mkDefault s

/-- `owner(owner&& o) : token_{o.token_} {}` — the move constructor.  The
target takes the source's token; the source object is not modified.
Returns `(target, moved-from source)`. -/
def Owner.moveCtor (src : Owner) : Owner × Owner :=
  (⟨src.token_⟩, src)

/-- `owner& operator=(const owner&) { return *this; }` — copy assignment is
a no-op on the target. -/
def Owner.copyAssign (tgt : Owner) (_src : Owner) : Owner := tgt

/-- `owner& operator=(owner&& o) { token_ = o.token_; return *this; }` —
move assignment overwrites the target's token with the source's; the source
is not modified.  Returns `(target after assignment, moved-from source)`. -/
def Owner.moveAssign (_tgt : Owner) (src : Owner) : Owner × Owner :=
  (⟨src.token_⟩, src)

/-- `static owner noone` — the process-wide sentinel owner, default
constructed during static initialization; modelled as the first mint from
the initial allocator state. -/
def noone : Owner := (Owner.mkDefault AllocState.init).1

/-- Allocator state after `noone` has been constructed. -/
def postNoone : AllocState := (Owner.mkDefault AllocState.init).2

/-- The `ownee` struct: holds `edit token_ {nullptr}`. -/
structure Ownee where
  token_ : Edit
deriving DecidableEq, Repr

/-- A default-initialized `ownee`: `token_` is the null edit. -/
def Ownee.init : Ownee := ⟨Edit.null⟩

/-- `ownee& operator=(edit e)`: after `assert(e != noone)` and
`assert(token_ == e || token_ == edit{nullptr})`, stores `e`.  A failed
assertion (the fatal error branch) is modelled as `none`. -/
def Ownee.assign (o : Ownee) (e : Edit) : Option Ownee :=
  if e = noone.token_ then none
  else if o.token_ = e ∨ o.token_ = Edit.null then some ⟨e⟩
  else none

/-- `bool can_mutate(edit t) const { return token_ == t; }` -/
def Ownee.can_mutate (o : Ownee) (t : Edit) : Bool := o.token_ == t

/-- `bool owned() const { return token_ != edit{nullptr}; }` -/
def Ownee.owned (o : Ownee) : Bool := o.token_ != Edit.null

/-- The `ownee` states the program can actually produce: default
initialization, followed by any number of successful guarded assignments. -/
inductive Ownee.Reach : Ownee → Prop
  | init : Ownee.Reach Ownee.init
  | assign (o o' : Ownee) (e : Edit) :
      Ownee.Reach o → Ownee.assign o e = some o' → Ownee.Reach o'

/-- A reachable ownee never stores the `noone` sentinel owner's token. -/
theorem Ownee.Reach.token_ne_noone {o : Ownee} (h : Ownee.Reach o) :
    o.token_ ≠ noone.token_ := by
  induction h with
  | init => decide
  | assign o o' e _ hassign _ =>
      unfold Ownee.assign at hassign
      by_cases he : e = noone.token_
      · simp [he] at hassign
      · by_cases hg : o.token_ = e ∨ o.token_ = Edit.null
        · simp [he, hg] at hassign
          simp [← hassign, he]
        · simp [he, hg] at hassign

/-! ### Claims about the ownership token protocol (C2–C6) -/

/-- Claim C2, counterexample.  The claim says the moved-from owner behaves
as if freshly default-constructed, its post-move token validating
`can_mutate` on no ownee owned by its old token `t`.  At the concrete
input: owner `A` with token `⟨2⟩` and an ownee legitimately assigned that
token, after move-constructing from `A` the moved-from `A` still holds
`⟨2⟩` and still validates `can_mutate` on that ownee. -/
theorem owner_move_resets_source_cex :
    Ownee.assign Ownee.init ⟨2⟩ = some ⟨⟨2⟩⟩ ∧
    ¬ (Ownee.can_mutate ⟨⟨2⟩⟩ ((Owner.moveCtor ⟨⟨2⟩⟩).2.token_) = false) := by
  decide

/-- Claim C2 (amended): move construction and move assignment transfer the
token — the target's token equals the source's pre-move token — but the
moved-from owner is left unchanged: its token field still holds the old
token, so it still validates `can_mutate` wherever the source did. -/
theorem owner_move_transfers_token (A : Owner) (tgt : Owner) :
    (Owner.moveCtor A).1.token_ = A.token_ ∧
    (Owner.moveCtor A).2 = A ∧
    (Owner.moveAssign tgt A).1.token_ = A.token_ ∧
    (Owner.moveAssign tgt A).2 = A := by
  refine ⟨rfl, rfl, rfl, rfl⟩

/-- Claim C3, counterexample.  The claim says the copy of an owner is a
default "no one" owner whose token equals the process-wide `noone`
sentinel's token.  At the concrete input: the first owner `A` minted after
`noone`, copy-constructed in the resulting allocator state, yields a token
(a fresh allocation) that does not equal `noone`'s token. -/
theorem owner_copy_is_noone_cex :
    ¬ ((Owner.copyCtor (Owner.mkDefault postNoone).1
          (Owner.mkDefault postNoone).2).1.token_ = noone.token_) := by
  decide

/-- Claim C3 (amended): copy construction behaves exactly like default
construction — it mints a fresh token, so the copy's token equals neither
the source's token nor the `noone` sentinel's token (for any source token
and any `noone` token already minted, i.e. with addresses below the
allocator cursor); copy assignment is a no-op, leaving the target's token
unchanged. -/
theorem owner_copy_never_claims (A : Owner) (s : AllocState)
    (hA : A.token_.v < s.next) (hnoone : noone.token_.v < s.next) :
    (Owner.copyCtor A s).1.token_ ≠ A.token_ ∧
    (Owner.copyCtor A s).1.token_ ≠ noone.token_ ∧
    (Owner.copyCtor A s).1 = (Owner.mkDefault s).1 ∧
    (∀ tgt : Owner, Owner.copyAssign tgt A = tgt) := by
  refine ⟨?_, ?_, rfl, fun _ => rfl⟩
  · intro h
    have hv : s.next = A.token_.v := congrArg Edit.v h
    omega
  · intro h
    have hv : s.next = noone.token_.v := congrArg Edit.v h
    omega

/-- Claim C3 witness: the amended statement at the concrete owner `⟨⟨2⟩⟩`
and allocator state `⟨3⟩`. -/
theorem owner_copy_never_claims_witness :
    (Owner.copyCtor ⟨⟨2⟩⟩ ⟨3⟩).1.token_ ≠ Edit.mk 2 ∧
    (Owner.copyCtor ⟨⟨2⟩⟩ ⟨3⟩).1.token_ ≠ noone.token_ ∧
    Owner.copyAssign ⟨⟨7⟩⟩ ⟨⟨2⟩⟩ = ⟨⟨7⟩⟩ := by
  have h := owner_copy_never_claims ⟨⟨2⟩⟩ ⟨3⟩ (by decide) (by decide)
  exact ⟨h.1, h.2.1, h.2.2.2 ⟨⟨7⟩⟩⟩

/-- Claim C4: on every reachable ownee, `can_mutate t` holds iff the stored
token equals `t` and `t` is not the `noone` sentinel owner's token (a
reachable ownee never stores that token, so the plain equality test of the
code coincides with the claimed characterization); and after a successful
guarded assignment `ownee = e`, `can_mutate e` holds and `can_mutate t'`
fails for every `t' ≠ e`. -/
theorem ownee_can_mutate_iff (o : Ownee) (ho : Ownee.Reach o) (t : Edit) :
    (Ownee.can_mutate o t = true ↔ (o.token_ = t ∧ t ≠ noone.token_)) ∧
    (∀ (o' : Ownee) (e : Edit), Ownee.assign o e = some o' →
      Ownee.can_mutate o' e = true ∧
        ∀ t' : Edit, t' ≠ e → Ownee.can_mutate o' t' = false) := by
  constructor
  · constructor
    · intro h
      have heq : o.token_ = t := by
        simpa [Ownee.can_mutate] using h
      exact ⟨heq, heq ▸ ho.token_ne_noone⟩
    · intro ⟨heq, _⟩
      simp [Ownee.can_mutate, heq]
  · intro o' e hassign
    unfold Ownee.assign at hassign
    by_cases he : e = noone.token_
    · simp [he] at hassign
    · by_cases hg : o.token_ = e ∨ o.token_ = Edit.null
      · simp [he, hg] at hassign
        refine ⟨by simp [← hassign, Ownee.can_mutate], ?_⟩
        intro t' ht'
        simp [← hassign, Ownee.can_mutate]
        exact fun h => absurd h.symm ht'
      · simp [he, hg] at hassign

/-- Claim C4 witness: exclusivity at the concrete ownee obtained by
assigning token `⟨2⟩` to a fresh ownee. -/
theorem ownee_can_mutate_iff_witness :
    Ownee.can_mutate ⟨⟨2⟩⟩ ⟨2⟩ = true ∧ Ownee.can_mutate ⟨⟨2⟩⟩ ⟨3⟩ = false := by
  have h := (ownee_can_mutate_iff Ownee.init Ownee.Reach.init Edit.null).2
    ⟨⟨2⟩⟩ ⟨2⟩ (by decide)
  exact ⟨h.1, h.2 ⟨3⟩ (by decide)⟩

/-- Claim C5: the guarded assignment `ownee = e` succeeds exactly when `e`
is not the `noone` sentinel's token and the ownee is currently unowned or
already holds `e`; on success the stored token becomes `e`, and in every
other case the operation takes the fatal assertion branch (`none`) instead
of silently overwriting the stored token. -/
theorem ownee_assign_guarded (o : Ownee) (e : Edit) :
    ((Ownee.assign o e).isSome = true ↔
      (e ≠ noone.token_ ∧ (Ownee.owned o = false ∨ Ownee.can_mutate o e = true))) ∧
    (∀ o' : Ownee, Ownee.assign o e = some o' → o'.token_ = e) := by
  constructor
  · unfold Ownee.assign
    by_cases he : e = noone.token_
    · simp [he]
    · by_cases hg : o.token_ = e ∨ o.token_ = Edit.null
      · simp [he, hg, Ownee.owned, Ownee.can_mutate]
        rcases hg with hg | hg <;> simp [hg]
      · simp [he, hg, Ownee.owned, Ownee.can_mutate]
        push_neg at hg
        simp [hg.1, hg.2]
  · intro o' hassign
    unfold Ownee.assign at hassign
    by_cases he : e = noone.token_
    · simp [he] at hassign
    · by_cases hg : o.token_ = e ∨ o.token_ = Edit.null
      · simp [he, hg] at hassign
        simp [← hassign]
      · simp [he, hg] at hassign

/-- Claim C5 witness: assigning `⟨2⟩` to a fresh ownee succeeds and stores
`⟨2⟩`; assigning `⟨3⟩` to an ownee owned by `⟨2⟩` hits the assertion
branch. -/
theorem ownee_assign_guarded_witness :
    (Ownee.assign Ownee.init ⟨2⟩).isSome = true ∧
    (Ownee.assign Ownee.init ⟨2⟩ = some ⟨⟨2⟩⟩ → (⟨⟨2⟩⟩ : Ownee).token_ = Edit.mk 2) ∧
    (Ownee.assign ⟨⟨2⟩⟩ ⟨3⟩).isSome = false := by
  refine ⟨(ownee_assign_guarded Ownee.init ⟨2⟩).1.mpr (by decide),
    (ownee_assign_guarded Ownee.init ⟨2⟩).2 ⟨⟨2⟩⟩, ?_⟩
  have h := (ownee_assign_guarded ⟨⟨2⟩⟩ ⟨3⟩).1
  cases hs : (Ownee.assign ⟨⟨2⟩⟩ ⟨3⟩).isSome with
  | false => rfl
  | true => exact absurd (h.mp hs) (by decide)

/-- Claim C6: token uniqueness.  A freshly minted owner's token differs
from every currently-live token — any token whose address was already
minted, i.e. lies below the allocator cursor — including every earlier
independently default-constructed owner's token and the `noone` sentinel
owner's token (live in every state after static initialization).  The
remaining conjuncts give cursor monotonicity: each mint leaves its own
token below the advanced cursor, so for any two owners minted at any two
distinct moments the earlier one's token is live at the later mint and the
two tokens are pairwise distinct. -/
theorem owner_token_uniqueness (s : AllocState) (t : Edit)
    (hlive : t.v < s.next) :
    (Owner.mkDefault s).1.token_ ≠ t ∧
    (Owner.mkDefault s).1.token_.v < (Owner.mkDefault s).2.next ∧
    s.next < (Owner.mkDefault s).2.next := by
  refine ⟨?_, ?_, ?_⟩
  · intro h
    have hv : s.next = t.v := congrArg Edit.v h
    omega
  · show s.next < s.next + 1
    omega
  · show s.next < s.next + 1
    omega

/-- Claim C6 witness: with `noone` minted at cursor 1 and two further
owners at cursors 2 and 3, a fourth owner minted at cursor 4 differs from
each of the three live tokens — including the non-adjacent pair
`⟨2⟩`/`⟨4⟩` — and the cursor advances past the fresh token. -/
theorem owner_token_uniqueness_witness :
    (Owner.mkDefault ⟨4⟩).1.token_ ≠ Edit.mk 2 ∧
    (Owner.mkDefault ⟨4⟩).1.token_ ≠ Edit.mk 3 ∧
    (Owner.mkDefault ⟨4⟩).1.token_ ≠ noone.token_ ∧
    (Owner.mkDefault ⟨4⟩).1.token_.v < (Owner.mkDefault ⟨4⟩).2.next :=
  ⟨(owner_token_uniqueness ⟨4⟩ ⟨2⟩ (by decide)).1,
   (owner_token_uniqueness ⟨4⟩ ⟨3⟩ (by decide)).1,
   (owner_token_uniqueness ⟨4⟩ noone.token_ (by decide)).1,
   (owner_token_uniqueness ⟨4⟩ ⟨2⟩ (by decide)).2.1⟩

/-! ### The array backing store and the persistent/transient duality

`array_transient` (src/immer/array_transient.hpp) delegates every operation
to `detail::arrays::with_capacity`, whose source is not available here, as
is `immer::array` (array.hpp).  The backing store is therefore modelled
from the specification: nodes live on a shared heap, each node carries an
element buffer and an `ownee` marker, and every mutator either mutates a
node in place when `ownee.can_mutate(token)` holds or clones the live
prefix of the node and relabels the clone with the calling transient's
token (copy-and-relabel). -/

/-- Modelled from the spec: a backing-store node — an element buffer plus
the per-node `ownee` marker recording which token may mutate it in
place. -/
structure Node (α : Type) where
  buf : List α
  ownee : Ownee
deriving DecidableEq, Repr

/-- Modelled from the spec: the heap of backing-store nodes, indexed by
position; allocating a node appends it. -/
structure Store (α : Type) where
  nodes : List (Node α)
deriving DecidableEq, Repr

/-- Allocate a fresh node, returning its index and the grown heap. -/
def Store.alloc {α : Type} (s : Store α) (n : Node α) : Nat × Store α :=
  (s.nodes.length, ⟨s.nodes ++ [n]⟩)

/-- Modelled from the spec: the `detail::arrays::with_capacity` handle —
a pointer `d` to the backing node and the separately stored element count
`size`. -/
structure with_capacity (α : Type) where
  d : Nat
  size : Nat
deriving DecidableEq, Repr

/-- Dereference the handle's node pointer. -/
def with_capacity.nodeOf {α : Type} (impl : with_capacity α) (s : Store α) :
    Option (Node α) :=
  s.nodes[impl.d]?

/-- Modelled from the spec: `impl_.get(index)` — read the node's buffer at
`index` (no bounds check against `size`; out-of-range is undefined,
modelled as `none`). -/
def with_capacity.get {α : Type} (impl : with_capacity α) (s : Store α)
    (i : Nat) : Option α :=
  (impl.nodeOf s).bind fun n => n.buf[i]?

/-- The live elements of a handle: the first `size` entries of its node's
buffer. -/
def with_capacity.toList {α : Type} (impl : with_capacity α) (s : Store α) :
    List α :=
  ((impl.nodeOf s).map fun n => n.buf.take impl.size).getD []

/-- Modelled from the spec: `impl_.d->empty()` — emptiness answered by
dereferencing the backing node and asking whether its buffer is empty. -/
def with_capacity.emptyNode {α : Type} (impl : with_capacity α) (s : Store α) :
    Bool :=
  ((impl.nodeOf s).map fun n => n.buf.isEmpty).getD true

/-- Modelled from the spec: `push_back_mut(e, value)` — append with claim:
mutate the node in place when the caller's token already owns it, else
clone the live prefix plus the new element and relabel the clone with the
token. -/
def with_capacity.push_back_mut {α : Type} (t : Edit) (s : Store α)
    (impl : with_capacity α) (v : α) : Store α × with_capacity α :=
  match s.nodes[impl.d]? with
  | none => (s, impl)
  | some n =>
    if n.ownee.can_mutate t then
      (⟨s.nodes.set impl.d { n with buf := n.buf.take impl.size ++ [v] }⟩,
       { impl with size := impl.size + 1 })
    else
      let (j, s') := s.alloc ⟨n.buf.take impl.size ++ [v], ⟨t⟩⟩
      (s', ⟨j, impl.size + 1⟩)

/-- Modelled from the spec: `assoc_mut(e, index, value)` — assign at index
with claim: in place when owned, else copy-and-relabel. -/
def with_capacity.assoc_mut {α : Type} (t : Edit) (s : Store α)
    (impl : with_capacity α) (i : Nat) (v : α) : Store α × with_capacity α :=
  match s.nodes[impl.d]? with
  | none => (s, impl)
  | some n =>
    if n.ownee.can_mutate t then
      (⟨s.nodes.set impl.d { n with buf := n.buf.set i v }⟩, impl)
    else
      let (j, s') := s.alloc ⟨(n.buf.take impl.size).set i v, ⟨t⟩⟩
      (s', ⟨j, impl.size⟩)

/-- Modelled from the spec: `update_mut(e, index, fn)` — read the element
at `index`, then assign `fn` of it with the same in-place-or-copy
decision. -/
def with_capacity.update_mut {α : Type} (t : Edit) (s : Store α)
    (impl : with_capacity α) (i : Nat) (f : α → α) : Store α × with_capacity α :=
  match impl.get s i with
  | none => (s, impl)
  | some x => with_capacity.assoc_mut t s impl i (f x)

/-- Modelled from the spec: `take_mut(e, elems)` — truncate to the first
`min(elems, size)` elements: a no-op when `elems ≥ size`, else in place
when owned, else copy the first `elems` elements and relabel. -/
def with_capacity.take_mut {α : Type} (t : Edit) (s : Store α)
    (impl : with_capacity α) (k : Nat) : Store α × with_capacity α :=
  if impl.size ≤ k then (s, impl)
  else
    match s.nodes[impl.d]? with
    | none => (s, impl)
    | some n =>
      if n.ownee.can_mutate t then
        (⟨s.nodes.set impl.d { n with buf := n.buf.take k }⟩,
         { impl with size := k })
      else
        let (j, s') := s.alloc ⟨n.buf.take k, ⟨t⟩⟩
        (s', ⟨j, k⟩)

/-- Handle validity: the node pointer dereferences, and the node's buffer
holds exactly the `size` live elements. -/
def with_capacity.valid {α : Type} (impl : with_capacity α) (s : Store α) :
    Bool :=
  match s.nodes[impl.d]? with
  | none => false
  | some n => n.buf.length == impl.size

/-- `immer::array` (source not available; holds a `with_capacity` handle,
structurally shared). -/
structure array (α : Type) where
  impl_ : with_capacity α
deriving DecidableEq, Repr

/-- `std::size_t size() const` of `immer::array`. -/
def array.size {α : Type} (P : array α) : Nat := P.impl_.size

/-- The elements of a persistent array, read through the shared store. -/
def array.toList {α : Type} (P : array α) (s : Store α) : List α :=
  P.impl_.toList s

/-- `operator[]` of `immer::array`: `impl_.get(index)`. -/
def array.getElem {α : Type} (P : array α) (s : Store α) (i : Nat) : Option α :=
  P.impl_.get s i

/-- `array_transient`: the `with_capacity` handle plus the `owner` base
subobject minted for the mutation session. -/
structure array_transient (α : Type) where
  impl_ : with_capacity α
  owner : Owner
deriving DecidableEq, Repr

/-- `std::size_t size() const { return impl_.size; }` -/
def array_transient.size {α : Type} (T : array_transient α) : Nat :=
  T.impl_.size

/-- `bool empty() const { return impl_.d->empty(); }` -/
def array_transient.empty {α : Type} (T : array_transient α) (s : Store α) :
    Bool :=
  T.impl_.emptyNode s

/-- `reference operator[](size_type index) const { return impl_.get(index); }` -/
def array_transient.getElem {α : Type} (T : array_transient α) (s : Store α)
    (i : Nat) : Option α :=
  T.impl_.get s i

/-- The live elements of a transient. -/
def array_transient.toList {α : Type} (T : array_transient α) (s : Store α) :
    List α :=
  T.impl_.toList s

/-- `void push_back(value_type value) { impl_.push_back_mut(*this, value); }` —
`*this` converts to the owner base's token. -/
def array_transient.push_back {α : Type} (T : array_transient α) (s : Store α)
    (v : α) : Store α × array_transient α :=
  ((with_capacity.push_back_mut T.owner.token_ s T.impl_ v).1,
   { T with impl_ := (with_capacity.push_back_mut T.owner.token_ s T.impl_ v).2 })

/-- `void set(size_type index, value_type value)
{ impl_.assoc_mut(*this, index, value); }` -/
def array_transient.set {α : Type} (T : array_transient α) (s : Store α)
    (i : Nat) (v : α) : Store α × array_transient α :=
  ((with_capacity.assoc_mut T.owner.token_ s T.impl_ i v).1,
   { T with impl_ := (with_capacity.assoc_mut T.owner.token_ s T.impl_ i v).2 })

/-- `void update(size_type index, FnT fn)
{ impl_.update_mut(*this, index, fn); }` -/
def array_transient.update {α : Type} (T : array_transient α) (s : Store α)
    (i : Nat) (f : α → α) : Store α × array_transient α :=
  ((with_capacity.update_mut T.owner.token_ s T.impl_ i f).1,
   { T with impl_ := (with_capacity.update_mut T.owner.token_ s T.impl_ i f).2 })

/-- `void take(size_type elems) { impl_.take_mut(*this, elems); }` -/
def array_transient.take {α : Type} (T : array_transient α) (s : Store α)
    (k : Nat) : Store α × array_transient α :=
  ((with_capacity.take_mut T.owner.token_ s T.impl_ k).1,
   { T with impl_ := (with_capacity.take_mut T.owner.token_ s T.impl_ k).2 })

/-- `persistent_type persistent() const& { return persistent_type{impl_}; }` —
the lvalue path: wraps the current handle; the transient is left
untouched and remains usable. -/
def array_transient.persistentL {α : Type} (T : array_transient α) : array α :=
  ⟨T.impl_⟩

/-- `persistent_type persistent() && { return persistent_type{std::move(impl_)}; }` —
the rvalue path: wraps the same handle, retiring the transient (it is
consumed and not returned). -/
def array_transient.persistentR {α : Type} (T : array_transient α) : array α :=
  ⟨T.impl_⟩

/-- Modelled from the spec: obtaining a transient from an immutable value
(`array::transient()`, source not available) mints a fresh owner/token pair
and shares the backing handle. -/
def array.transient {α : Type} (P : array α) (as : AllocState) :
    array_transient α × AllocState :=
  let (o, as') := Owner.mkDefault as
  ({ impl_ := P.impl_, owner := o }, as')

/-! ### Helper lemmas about the backing store -/

theorem with_capacity.valid_iff {α : Type} (impl : with_capacity α)
    (s : Store α) :
    impl.valid s = true ↔
      ∃ n : Node α, s.nodes[impl.d]? = some n ∧ n.buf.length = impl.size := by
  unfold with_capacity.valid
  cases hn : s.nodes[impl.d]? with
  | none => simp [hn]
  | some n =>
      simp only [hn, beq_iff_eq]
      constructor
      · intro h; exact ⟨n, rfl, h⟩
      · rintro ⟨m, hm, hlen⟩
        cases hm
        exact hlen

theorem with_capacity.valid_push_back_mut {α : Type} (t : Edit) (s : Store α)
    (impl : with_capacity α) (v : α) (h : impl.valid s = true) :
    (with_capacity.push_back_mut t s impl v).2.valid
      (with_capacity.push_back_mut t s impl v).1 = true := by
  obtain ⟨n, hn, hlen⟩ := (with_capacity.valid_iff impl s).mp h
  have hd : impl.d < s.nodes.length := (List.getElem?_eq_some.mp hn).1
  unfold with_capacity.push_back_mut
  rw [hn]
  dsimp only
  by_cases hcm : n.ownee.can_mutate t = true
  · rw [if_pos hcm, with_capacity.valid_iff]
    refine ⟨_, List.getElem?_set_self (by simpa using hd), ?_⟩
    simp [List.length_take, hlen]
  · rw [if_neg hcm]
    simp only [Store.alloc]
    rw [with_capacity.valid_iff]
    refine ⟨_, List.getElem?_concat_length _ _, ?_⟩
    simp [List.length_take, hlen]

theorem with_capacity.valid_assoc_mut {α : Type} (t : Edit) (s : Store α)
    (impl : with_capacity α) (i : Nat) (v : α) (h : impl.valid s = true) :
    (with_capacity.assoc_mut t s impl i v).2.valid
      (with_capacity.assoc_mut t s impl i v).1 = true := by
  obtain ⟨n, hn, hlen⟩ := (with_capacity.valid_iff impl s).mp h
  have hd : impl.d < s.nodes.length := (List.getElem?_eq_some.mp hn).1
  unfold with_capacity.assoc_mut
  rw [hn]
  dsimp only
  by_cases hcm : n.ownee.can_mutate t = true
  · rw [if_pos hcm, with_capacity.valid_iff]
    refine ⟨_, List.getElem?_set_self (by simpa using hd), ?_⟩
    simp [hlen]
  · rw [if_neg hcm]
    simp only [Store.alloc]
    rw [with_capacity.valid_iff]
    refine ⟨_, List.getElem?_concat_length _ _, ?_⟩
    simp [List.length_take, hlen]

theorem with_capacity.valid_update_mut {α : Type} (t : Edit) (s : Store α)
    (impl : with_capacity α) (i : Nat) (f : α → α) (h : impl.valid s = true) :
    (with_capacity.update_mut t s impl i f).2.valid
      (with_capacity.update_mut t s impl i f).1 = true := by
  unfold with_capacity.update_mut
  cases hg : impl.get s i with
  | none => simpa using h
  | some x => exact with_capacity.valid_assoc_mut t s impl i (f x) h

theorem with_capacity.valid_take_mut {α : Type} (t : Edit) (s : Store α)
    (impl : with_capacity α) (k : Nat) (h : impl.valid s = true) :
    (with_capacity.take_mut t s impl k).2.valid
      (with_capacity.take_mut t s impl k).1 = true := by
  obtain ⟨n, hn, hlen⟩ := (with_capacity.valid_iff impl s).mp h
  have hd : impl.d < s.nodes.length := (List.getElem?_eq_some.mp hn).1
  unfold with_capacity.take_mut
  by_cases hk : impl.size ≤ k
  · simpa [hk] using h
  · rw [if_neg hk, hn]
    dsimp only
    by_cases hcm : n.ownee.can_mutate t = true
    · rw [if_pos hcm, with_capacity.valid_iff]
      refine ⟨_, List.getElem?_set_self (by simpa using hd), ?_⟩
      simp only [List.length_take, hlen]
      omega
    · rw [if_neg hcm]
      simp only [Store.alloc]
      rw [with_capacity.valid_iff]
      refine ⟨_, List.getElem?_concat_length _ _, ?_⟩
      simp only [List.length_take, hlen]
      omega

/-! ### Claims about the persistent/transient duality (C1, C7, C8, C10) -/

/-- Claim C7: deriving a transient from a persistent value and converting
back with `persistent()` yields a value element-wise equal to the original
— same size, same element at every index, same live-element list — for
both the lvalue path (`persistentL`, which leaves the transient untouched)
and the rvalue path (`persistentR`, which retires the transient). -/
theorem round_trip (α : Type) (P : array α) (s : Store α) (as : AllocState) :
    (array_transient.persistentL (P.transient as).1).size = P.size ∧
    (array_transient.persistentL (P.transient as).1).toList s = P.toList s ∧
    (∀ i : Nat,
      (array_transient.persistentL (P.transient as).1).getElem s i =
        P.getElem s i) ∧
    (array_transient.persistentR (P.transient as).1).size = P.size ∧
    (array_transient.persistentR (P.transient as).1).toList s = P.toList s ∧
    (∀ i : Nat,
      (array_transient.persistentR (P.transient as).1).getElem s i =
        P.getElem s i) ∧
    ((P.transient as).1.impl_ = P.impl_) := by
  exact ⟨rfl, rfl, fun _ => rfl, rfl, rfl, fun _ => rfl, rfl⟩

/-- Claim C8: `T.take(k)` is a no-op when `k ≥ size()` (store and transient
both unchanged); when `k < size()` the result has `size() == k` and its
live elements are exactly the first `k` elements of the original. -/
theorem take_semantics (α : Type) (T : array_transient α) (s : Store α)
    (k : Nat) (hval : T.impl_.valid s = true) :
    (T.size ≤ k → array_transient.take T s k = (s, T)) ∧
    (k < T.size →
      (array_transient.take T s k).2.size = k ∧
      (array_transient.take T s k).2.toList (array_transient.take T s k).1 =
        (T.toList s).take k) := by
  obtain ⟨n, hn, hlen⟩ := (with_capacity.valid_iff T.impl_ s).mp hval
  have hd : T.impl_.d < s.nodes.length := (List.getElem?_eq_some.mp hn).1
  constructor
  · intro hk
    unfold array_transient.take with_capacity.take_mut
    simp [array_transient.size] at hk
    simp [hk]
  · intro hk
    simp only [array_transient.size] at hk
    unfold array_transient.take with_capacity.take_mut
    have hk' : ¬ T.impl_.size ≤ k := by omega
    rw [if_neg hk', hn]
    dsimp only
    by_cases hcm : n.ownee.can_mutate T.owner.token_ = true
    · rw [if_pos hcm]
      refine ⟨rfl, ?_⟩
      unfold array_transient.toList with_capacity.toList with_capacity.nodeOf
      rw [List.getElem?_set_self (by simpa using hd), hn]
      have hmin : min k T.impl_.size = k := Nat.min_eq_left (Nat.le_of_lt hk)
      simp [List.take_take, hmin]
    · rw [if_neg hcm]
      simp only [Store.alloc]
      refine ⟨rfl, ?_⟩
      unfold array_transient.toList with_capacity.toList with_capacity.nodeOf
      rw [List.getElem?_concat_length, hn]
      have hmin : min k T.impl_.size = k := Nat.min_eq_left (Nat.le_of_lt hk)
      simp [List.take_take, hmin]

/-- Claim C8 witness: on the concrete transient `[1,2,3,4]`, `take 5` is a
no-op and `take 2` yields the two-element array `[1,2]`. -/
theorem take_semantics_witness :
    array_transient.take
        (⟨⟨0, 4⟩, ⟨⟨2⟩⟩⟩ : array_transient Nat)
        ⟨[⟨[1, 2, 3, 4], ⟨⟨0⟩⟩⟩]⟩ 5 =
      (⟨[⟨[1, 2, 3, 4], ⟨⟨0⟩⟩⟩]⟩, ⟨⟨0, 4⟩, ⟨⟨2⟩⟩⟩) ∧
    (array_transient.take (⟨⟨0, 4⟩, ⟨⟨2⟩⟩⟩ : array_transient Nat)
        ⟨[⟨[1, 2, 3, 4], ⟨⟨0⟩⟩⟩]⟩ 2).2.size = 2 ∧
    (array_transient.take (⟨⟨0, 4⟩, ⟨⟨2⟩⟩⟩ : array_transient Nat)
        ⟨[⟨[1, 2, 3, 4], ⟨⟨0⟩⟩⟩]⟩ 2).2.toList
      (array_transient.take (⟨⟨0, 4⟩, ⟨⟨2⟩⟩⟩ : array_transient Nat)
        ⟨[⟨[1, 2, 3, 4], ⟨⟨0⟩⟩⟩]⟩ 2).1 = [1, 2] := by
  have h5 := take_semantics Nat ⟨⟨0, 4⟩, ⟨⟨2⟩⟩⟩ ⟨[⟨[1, 2, 3, 4], ⟨⟨0⟩⟩⟩]⟩ 5
    (by decide)
  have h2 := take_semantics Nat ⟨⟨0, 4⟩, ⟨⟨2⟩⟩⟩ ⟨[⟨[1, 2, 3, 4], ⟨⟨0⟩⟩⟩]⟩ 2
    (by decide)
  refine ⟨h5.1 (by decide), (h2.2 (by decide)).1, ?_⟩
  rw [(h2.2 (by decide)).2]
  decide

/-- Claim C1: structural independence.  For a persistent value `P` whose
node labels all predate the allocator cursor (every stored ownee token was
minted before the fresh token the new transient receives), deriving a
transient, pushing `v`, and converting back yields: `P` observably
unchanged in the post-mutation store (same live elements, every raw read
identical), while the new persistent value has one more element, namely
the old elements followed by `v`. -/
theorem structural_independence (α : Type) (P : array α) (s : Store α)
    (as : AllocState) (v : α)
    (hval : P.impl_.valid s = true)
    (hfresh : s.nodes.all (fun n => decide (n.ownee.token_.v < as.next)) = true) :
    P.toList (array_transient.push_back (P.transient as).1 s v).1 = P.toList s ∧
    (∀ i : Nat,
      P.getElem (array_transient.push_back (P.transient as).1 s v).1 i =
        P.getElem s i) ∧
    (array_transient.persistentL
        (array_transient.push_back (P.transient as).1 s v).2).size =
      P.size + 1 ∧
    (array_transient.persistentL
        (array_transient.push_back (P.transient as).1 s v).2).toList
      (array_transient.push_back (P.transient as).1 s v).1 =
      P.toList s ++ [v] := by
  obtain ⟨n, hn, hlen⟩ := (with_capacity.valid_iff P.impl_ s).mp hval
  have hd : P.impl_.d < s.nodes.length := (List.getElem?_eq_some.mp hn).1
  have hmem : n ∈ s.nodes := List.getElem?_mem hn
  have hlt : n.ownee.token_.v < as.next := by
    rw [List.all_eq_true] at hfresh
    simpa using hfresh n hmem
  have htok : (P.transient as).1.owner.token_ = Edit.mk as.next := rfl
  have hcm : ¬ (n.ownee.can_mutate (P.transient as).1.owner.token_ = true) := by
    rw [htok]
    unfold Ownee.can_mutate
    simp only [beq_iff_eq]
    intro hcontra
    have : n.ownee.token_.v = as.next := congrArg Edit.v hcontra
    omega
  have hpb : array_transient.push_back (P.transient as).1 s v =
      (⟨s.nodes ++ [⟨n.buf.take P.impl_.size ++ [v],
          ⟨(P.transient as).1.owner.token_⟩⟩]⟩,
       ⟨⟨s.nodes.length, P.impl_.size + 1⟩, (P.transient as).1.owner⟩) := by
    unfold array_transient.push_back with_capacity.push_back_mut
    rw [show (P.transient as).1.impl_ = P.impl_ from rfl, hn]
    dsimp only
    rw [if_neg hcm]
    rfl
  rw [hpb]
  refine ⟨?_, ?_, rfl, ?_⟩
  · unfold array.toList with_capacity.toList with_capacity.nodeOf
    dsimp only
    rw [List.getElem?_append]
    simp [hd]
  · intro i
    unfold array.getElem with_capacity.get with_capacity.nodeOf
    dsimp only
    rw [List.getElem?_append]
    simp [hd]
  · unfold array.toList with_capacity.toList with_capacity.nodeOf
    dsimp only [array_transient.persistentL]
    rw [List.getElem?_concat_length, hn]
    dsimp only [Option.map, Option.getD]
    rw [List.take_of_length_le]
    simp only [List.length_append, List.length_take, hlen, List.length_cons,
      List.length_nil]
    omega

/-- Claim C1 witness: the concrete scenario `P = [1,2,3]`, `T.push_back 4`,
`P2 = T.persistent()`: `P` still reads `[1,2,3]` (size 3) in the
post-mutation store while `P2` reads `[1,2,3,4]` (size 4). -/
theorem structural_independence_witness :
    array.toList (⟨⟨0, 3⟩⟩ : array Nat)
        (array_transient.push_back
          ((array.transient ⟨⟨0, 3⟩⟩ postNoone).1)
          ⟨[⟨[1, 2, 3], ⟨⟨0⟩⟩⟩]⟩ 4).1 = [1, 2, 3] ∧
    array.size (⟨⟨0, 3⟩⟩ : array Nat) = 3 ∧
    (array_transient.persistentL
        (array_transient.push_back ((array.transient ⟨⟨0, 3⟩⟩ postNoone).1)
          ⟨[⟨[1, 2, 3], ⟨⟨0⟩⟩⟩]⟩ 4).2).size = 4 ∧
    (array_transient.persistentL
        (array_transient.push_back ((array.transient ⟨⟨0, 3⟩⟩ postNoone).1)
          ⟨[⟨[1, 2, 3], ⟨⟨0⟩⟩⟩]⟩ 4).2).toList
      (array_transient.push_back ((array.transient ⟨⟨0, 3⟩⟩ postNoone).1)
        ⟨[⟨[1, 2, 3], ⟨⟨0⟩⟩⟩]⟩ 4).1 = [1, 2, 3, 4] := by
  have h := structural_independence Nat ⟨⟨0, 3⟩⟩ ⟨[⟨[1, 2, 3], ⟨⟨0⟩⟩⟩]⟩
    postNoone 4 (by decide) (by decide)
  exact ⟨h.1.trans (by decide), by decide, h.2.2.1.trans (by decide),
    h.2.2.2.trans (by decide)⟩

/-- A mutation step on a transient: the four claim-relevant operations of
`array_transient`. -/
inductive Op (α : Type) where
  | push (v : α)
  | set (i : Nat) (v : α)
  | update (i : Nat) (f : α → α)
  | take (k : Nat)

/-- Run one operation on a (store, transient) pair. -/
def array_transient.applyOp {α : Type} (sT : Store α × array_transient α) :
    Op α → Store α × array_transient α
  | Op.push v => array_transient.push_back sT.2 sT.1 v
  | Op.set i v => array_transient.set sT.2 sT.1 i v
  | Op.update i f => array_transient.update sT.2 sT.1 i f
  | Op.take k => array_transient.take sT.2 sT.1 k

/-- Run a sequence of operations on a (store, transient) pair. -/
def array_transient.applyOps {α : Type} (sT : Store α × array_transient α)
    (ops : List (Op α)) : Store α × array_transient α :=
  ops.foldl array_transient.applyOp sT

theorem array_transient.valid_applyOp {α : Type}
    (sT : Store α × array_transient α) (op : Op α)
    (h : sT.2.impl_.valid sT.1 = true) :
    (array_transient.applyOp sT op).2.impl_.valid
      (array_transient.applyOp sT op).1 = true := by
  cases op with
  | push v => exact with_capacity.valid_push_back_mut _ _ _ _ h
  | set i v => exact with_capacity.valid_assoc_mut _ _ _ _ _ h
  | update i f => exact with_capacity.valid_update_mut _ _ _ _ _ h
  | take k => exact with_capacity.valid_take_mut _ _ _ _ h

theorem array_transient.valid_applyOps {α : Type} (ops : List (Op α))
    (sT : Store α × array_transient α)
    (h : sT.2.impl_.valid sT.1 = true) :
    (array_transient.applyOps sT ops).2.impl_.valid
      (array_transient.applyOps sT ops).1 = true := by
  induction ops generalizing sT with
  | nil => exact h
  | cons op ops ih =>
      exact ih _ (array_transient.valid_applyOp sT op h)

theorem array_transient.empty_eq_decide_size {α : Type} (s : Store α)
    (T : array_transient α) (h : T.impl_.valid s = true) :
    array_transient.empty T s = decide (array_transient.size T = 0) := by
  obtain ⟨n, hn, hlen⟩ := (with_capacity.valid_iff T.impl_ s).mp h
  unfold array_transient.empty with_capacity.emptyNode with_capacity.nodeOf
    array_transient.size
  rw [hn]
  dsimp only [Option.map, Option.getD]
  rw [← hlen]
  cases n.buf <;> simp

/-- Claim C10: the two emptiness views agree.  Starting from any valid
(store, transient) pair — in particular a default-constructed empty
transient — after any sequence of `push_back`, `set`, `update` and `take`
operations, `empty()` (which dereferences the backing node) returns `true`
exactly when `size()` (which reads the separately stored size field)
returns `0`. -/
theorem empty_agrees_with_size (α : Type) (s : Store α)
    (T : array_transient α) (hval : T.impl_.valid s = true)
    (ops : List (Op α)) :
    (array_transient.applyOps (s, T) ops).2.empty
        (array_transient.applyOps (s, T) ops).1 =
      decide ((array_transient.applyOps (s, T) ops).2.size = 0) :=
  array_transient.empty_eq_decide_size _ _
    (array_transient.valid_applyOps ops (s, T) hval)

/-- Claim C10 witness: on a default-constructed empty transient, a mixed
sequence of operations ending in `take 0` keeps the two views agreeing. -/
theorem empty_agrees_with_size_witness :
    (array_transient.applyOps
        ((⟨[⟨[], ⟨⟨0⟩⟩⟩]⟩ : Store Nat), (⟨⟨0, 0⟩, ⟨⟨2⟩⟩⟩ : array_transient Nat))
        [Op.push 1, Op.push 2, Op.set 0 7, Op.update 1 Nat.succ,
         Op.take 1, Op.take 0]).2.empty
      (array_transient.applyOps
        ((⟨[⟨[], ⟨⟨0⟩⟩⟩]⟩ : Store Nat), (⟨⟨0, 0⟩, ⟨⟨2⟩⟩⟩ : array_transient Nat))
        [Op.push 1, Op.push 2, Op.set 0 7, Op.update 1 Nat.succ,
         Op.take 1, Op.take 0]).1 =
      decide ((array_transient.applyOps
        ((⟨[⟨[], ⟨⟨0⟩⟩⟩]⟩ : Store Nat), (⟨⟨0, 0⟩, ⟨⟨2⟩⟩⟩ : array_transient Nat))
        [Op.push 1, Op.push 2, Op.set 0 7, Op.update 1 Nat.succ,
         Op.take 1, Op.take 0]).2.size = 0) :=
  empty_agrees_with_size Nat ⟨[⟨[], ⟨⟨0⟩⟩⟩]⟩ ⟨⟨0, 0⟩, ⟨⟨2⟩⟩⟩ (by decide)
    [Op.push 1, Op.push 2, Op.set 0 7, Op.update 1 Nat.succ,
     Op.take 1, Op.take 0]

end Immer
